import Mathlib

/-!
Shallow embedding of a vscode web-bootstrap fragment:
a polling URL-callback provider, a local-storage credentials provider,
a trusted-domains virtual file-system provider, and a dialog helper.
Definitions are translated from the TypeScript source; theorems settle
the specification claims about them.
-/

namespace VSCodeWeb

/-- Components of a URI, as in `vs/base/common/uri` `UriComponents`. -/
structure UriComponents where
  scheme : String
  authority : String
  path : String
  query : String
  fragment : String
  deriving DecidableEq, Repr

deriving instance DecidableEq for Except

/-- Outcome of one `/fetch-callback` HTTP round trip, as observed by
`periodicFetchCallback`: the buffered body is either empty
(`content.byteLength = 0`) or non-empty, in which case it is given
together with the result of `JSON.parse` on it (the parser itself is
external library code, so a non-empty body is represented by its parse
outcome). -/
inductive FetchResponse where
  | empty : FetchResponse
  | nonEmpty : Except String UriComponents → FetchResponse
  deriving DecidableEq, Repr

/-- One poll cycle of a ticket: `now` is the value of `Date.now()` when the
buffered response is examined, `resp` the response body. -/
structure Cycle where
  now : Nat
  resp : FetchResponse
  deriving DecidableEq, Repr

/-- Status of a ticket's poll sequence. `polling` is the live state; the
other three are terminal: `delivered` after a successful parse and event
fire, `dropped` after a caught `JSON.parse` failure, `expired` after the
timeout check fails. -/
inductive PollStatus where
  | polling
  | delivered
  | dropped
  | expired
  deriving DecidableEq, Repr

/-- State of one ticket's poll sequence, together with its observable
accumulators: `issued` records the times at which poll requests were
issued (the first request is issued synchronously inside `create`, each
later one by `setTimeout(..., FETCH_INTERVAL)` from the completion time
of the previous cycle, recorded in `issueTime`); `logged` counts caught
parse errors sent to `console.error`. -/
structure TicketState where
  requestId : String
  startTime : Nat
  issueTime : Nat
  status : PollStatus
  issued : List Nat
  logged : Nat
  deriving DecidableEq, Repr

namespace PollingURLCallbackProvider

/-- fetch every 500ms (`PollingURLCallbackProvider.FETCH_INTERVAL`). -/
def FETCH_INTERVAL : Nat := 500

/-- but stop after 5min (`PollingURLCallbackProvider.FETCH_TIMEOUT`). -/
def FETCH_TIMEOUT : Nat := 5 * 60 * 1000

/-- Ticket state right after `create` calls
`periodicFetchCallback(requestId, Date.now())`: the first request is
about to be issued at `startTime`. -/
def initTicket (requestId : String) (startTime : Nat) : TicketState :=
  { requestId := requestId
    startTime := startTime
    issueTime := startTime
    status := .polling
    issued := []
    logged := 0 }

/-- One invocation of `periodicFetchCallback` for a live ticket: the
pending request (issued at `issueTime`) completes at `c.now` with body
`c.resp`.  A non-empty body fires `_onCallback` with the parsed payload
and returns (terminal), a parse failure is caught and logged and returns
(terminal), an empty body re-schedules after `FETCH_INTERVAL` only when
`Date.now() - startTime < FETCH_TIMEOUT`.  A ticket whose sequence has
already returned performs no further cycles. -/
def stepTicket (s : TicketState) (c : Cycle) : TicketState × List UriComponents :=
  if s.status = .polling then
    let s0 := { s with issued := s.issued ++ [s.issueTime] }
    match c.resp with
    | .nonEmpty (.ok payload) => ({ s0 with status := .delivered }, [payload])
    | .nonEmpty (.error _) => ({ s0 with status := .dropped, logged := s0.logged + 1 }, [])
    | .empty =>
      if c.now - s.startTime < FETCH_TIMEOUT then
        ({ s0 with issueTime := c.now + FETCH_INTERVAL }, [])
      else
        ({ s0 with status := .expired }, [])
  else (s, [])

/-- Run a ticket's poll sequence over a list of observed cycles,
returning the final state and the list of `_onCallback` events fired, in
order. -/
def runTicket (s : TicketState) : List Cycle → TicketState × List UriComponents
  | [] => (s, [])
  | c :: rest =>
    let r1 := stepTicket s c
    let r2 := runTicket r1.1 rest
    (r2.1, r1.2 ++ r2.2)

/-- A cycle list is a valid observation of a ticket when every cycle of a
live sequence completes no earlier than its request was issued (an HTTP
response cannot precede its request). -/
def ValidRun : TicketState → List Cycle → Prop
  | _, [] => True
  | s, c :: rest => (s.status = .polling → s.issueTime ≤ c.now) ∧ ValidRun (stepTicket s c).1 rest

instance instDecidableValidRun : (s : TicketState) → (cs : List Cycle) → Decidable (ValidRun s cs)
  | _, [] => .isTrue trivial
  | s, c :: rest =>
    have : Decidable (ValidRun (stepTicket s c).1 rest) := instDecidableValidRun _ rest
    inferInstanceAs (Decidable (_ ∧ _))

/-- Interleaved execution of two tickets A and B sharing only the
broadcast `_onCallback` emitter: each trace element carries the ticket it
belongs to (`true` for A) and its cycle; fired events from both tickets
are appended to the one shared event log. -/
def runTwo (sA sB : TicketState) :
    List (Bool × Cycle) → TicketState × TicketState × List UriComponents
  | [] => (sA, sB, [])
  | wc :: rest =>
    if wc.1 then
      let r := stepTicket sA wc.2
      let rst := runTwo r.1 sB rest
      (rst.1, rst.2.1, r.2 ++ rst.2.2)
    else
      let r := stepTicket sB wc.2
      let rst := runTwo sA r.1 rest
      (rst.1, rst.2.1, r.2 ++ rst.2.2)

/-- Cycles of one ticket within an interleaved two-ticket trace. -/
def cyclesFor (who : Bool) (trace : List (Bool × Cycle)) : List Cycle :=
  trace.filterMap (fun wc => if wc.1 = who then some wc.2 else none)

end PollingURLCallbackProvider

/-- Partial URI components, as in `Partial<UriComponents>`: a missing
field is `none`. -/
structure PartialUriComponents where
  scheme : Option String := none
  authority : Option String := none
  path : Option String := none
  query : Option String := none
  fragment : Option String := none
  deriving DecidableEq, Repr

/-- Characters left unchanged by JavaScript `encodeURIComponent`
(given by code point): letters, digits, and `- _ . ! ~ * ( )` together
with the apostrophe (code 39). -/
def isUnreservedURIChar (n : Nat) : Bool :=
  (65 ≤ n && n ≤ 90) || (97 ≤ n && n ≤ 122) || (48 ≤ n && n ≤ 57) ||
    [45, 95, 46, 33, 126, 42, 39, 40, 41].contains n

/-- Uppercase hexadecimal digit for a value below 16. -/
def hexDigitU (n : Nat) : Char :=
  if n < 10 then Char.ofNat (48 + n) else Char.ofNat (55 + n)

/-- UTF-8 encoding of a Unicode code point. -/
def utf8Bytes (n : Nat) : List Nat :=
  if n < 0x80 then [n]
  else if n < 0x800 then
    [0xC0 + n / 64, 0x80 + n % 64]
  else if n < 0x10000 then
    [0xE0 + n / 4096, 0x80 + n / 64 % 64, 0x80 + n % 64]
  else
    [0xF0 + n / 262144, 0x80 + n / 4096 % 64, 0x80 + n / 64 % 64, 0x80 + n % 64]

/-- Percent-escape of one byte, with uppercase hex digits. -/
def percentByte (b : Nat) : List Char :=
  ['%', hexDigitU (b / 16), hexDigitU (b % 16)]

/-- JavaScript `encodeURIComponent`: unreserved characters are kept,
every other character is replaced by the percent-escapes of its UTF-8
bytes. -/
def encodeURIComponent (s : String) : String :=
  String.mk ((s.data.map (fun c =>
    if isUnreservedURIChar c.toNat then [c]
    else (utf8Bytes c.toNat).map percentByte |>.flatten)).flatten)

namespace PollingURLCallbackProvider

/-- `PollingURLCallbackProvider.QUERY_KEYS`. -/
def REQUEST_ID : String := "vscode-requestId"

/-- Query key for the scheme component. -/
def SCHEME : String := "vscode-scheme"

/-- Query key for the authority component. -/
def AUTHORITY : String := "vscode-authority"

/-- Query key for the path component. -/
def PATH : String := "vscode-path"

/-- Query key for the query component. -/
def QUERY : String := "vscode-query"

/-- Query key for the fragment component. -/
def FRAGMENT : String := "vscode-fragment"

/-- JavaScript `Map.prototype.set`: an existing key is updated in place,
a new key is appended, insertion order preserved. -/
def mapSet (m : List (String × String)) (k v : String) : List (String × String) :=
  if m.any (fun kv => kv.1 == k) then
    m.map (fun kv => if kv.1 == k then (k, v) else kv)
  else m ++ [(k, v)]

/-- One `if (component) { queryValues.set(KEY, component); }` block of
`create`: a JavaScript string is truthy exactly when it is defined and
non-empty. -/
def addComponent (m : List (String × String)) (k : String) :
    Option String → List (String × String)
  | none => m
  | some s => if s == "" then m else mapSet m k s

/-- Query-value map assembled by `create`: the generated `requestId`
under `REQUEST_ID`, then each truthy option component under its key, in
source order. -/
def createQueryValues (requestId : String) (options : Option PartialUriComponents) :
    List (String × String) :=
  let m := mapSet [] REQUEST_ID requestId
  let o := options.getD {}
  let m := addComponent m SCHEME o.scheme
  let m := addComponent m AUTHORITY o.authority
  let m := addComponent m PATH o.path
  let m := addComponent m QUERY o.query
  addComponent m FRAGMENT o.fragment

/-- Tail of the query string built by `doCreateUri`'s `forEach`: after
the first entry, each further entry is appended as
`'&' + key + '=' + encodeURIComponent(value)`. -/
def renderQueryFrom (acc : String) : List (String × String) → String
  | [] => acc
  | kv :: rest => renderQueryFrom (acc ++ "&" ++ kv.1 ++ "=" ++ encodeURIComponent kv.2) rest

/-- Query string built by `doCreateUri`: `undefined` when the map is
empty, otherwise `key=encodeURIComponent(value)` pairs joined by `&` in
map order (keys themselves are not encoded). -/
def renderQuery : List (String × String) → Option String
  | [] => none
  | kv :: rest => some (renderQueryFrom (kv.1 ++ "=" ++ encodeURIComponent kv.2) rest)

/-- `doCreateUri(path, queryValues)`: parse the current location `loc`
and replace its path and query (`URI.with` keeps a component whose
replacement is `undefined`, so an empty map leaves the location's query
in place). -/
def doCreateUri (loc : UriComponents) (path : String)
    (queryValues : List (String × String)) : UriComponents :=
  match renderQuery queryValues with
  | some q => { loc with path := path, query := q }
  | none => { loc with path := path }

/-- `create(options)`: build the query values and return the redirect
URI at `/callback` on the current location `loc`; the fresh
`generateUuid()` result is passed in as `requestId` and the poll
side effect is modelled separately by `runTicket` on `initTicket`. -/
def create (loc : UriComponents) (requestId : String)
    (options : Option PartialUriComponents) : UriComponents :=
  doCreateUri loc "/callback" (createQueryValues requestId options)

end PollingURLCallbackProvider

/-- One stored credential of `LocalStorageCredentialsProvider`. -/
structure ICredential where
  service : String
  account : String
  password : String
  deriving DecidableEq, Repr

namespace LocalStorageCredentialsProvider

/-- `doGetPassword(service, account?)`: scan the credential list in
order; a credential whose service matches is returned when the account
argument is absent (`typeof account !== 'string'`) or equal to the
credential's account, otherwise scanning continues; `null` when no
credential matches. -/
def doGetPassword (creds : List ICredential) (service : String) :
    Option String → Option String
  | account =>
    match creds with
    | [] => none
    | c :: rest =>
      if c.service == service then
        if (match account with | none => true | some a => a == c.account) then
          some c.password
        else doGetPassword rest service account
      else doGetPassword rest service account

/-- `getPassword(service, account)`. -/
def getPassword (creds : List ICredential) (service account : String) : Option String :=
  doGetPassword creds service (some account)

/-- `deletePassword(service, account)`: filter out every credential
matching both service and account; the returned flag records whether any
was removed. -/
def deletePassword (creds : List ICredential) (service account : String) :
    List ICredential × Bool :=
  (creds.filter (fun c => !(c.service == service && c.account == account)),
   creds.any (fun c => c.service == service && c.account == account))

/-- `setPassword(service, account, password)`: delete any credential for
the pair, then push the new one at the end of the list. -/
def setPassword (creds : List ICredential) (service account password : String) :
    List ICredential :=
  (deletePassword creds service account).1 ++ [⟨service, account, password⟩]

/-- `findPassword(service)`: first credential for the service, any
account. -/
def findPassword (creds : List ICredential) (service : String) : Option String :=
  doGetPassword creds service none

end LocalStorageCredentialsProvider

namespace Dialogs

/-- at most this many file names are listed (`MAX_CONFIRM_FILES`). -/
def MAX_CONFIRM_FILES : Nat := 10

/-- English text of `localize('moreFile', ...)`. -/
def moreFileMsg : String := "...1 additional file not shown"

/-- English text of `localize('moreFiles', "...{0} additional files not shown", n)`
with the count substituted. -/
def moreFilesMsg (n : Nat) : String :=
  "..." ++ toString n ++ " additional files not shown"

/-- `getConfirmMessage(start, resourcesToConfirm)`: the start line, a
blank line, the basenames of the first `MAX_CONFIRM_FILES` resources
(`slice(0, MAX_CONFIRM_FILES)`), one overflow line when more resources
were given than shown, a final blank line, all joined by newlines.  The
external `basename` of `vs/base/common/resources` is abstracted as the
function argument `basenameOf`. -/
def getConfirmMessage {α : Type} (basenameOf : α → String) (start : String)
    (resourcesToConfirm : List α) : String :=
  let message := [start]
  let message := message ++ [""]
  let message := message ++ (resourcesToConfirm.take MAX_CONFIRM_FILES).map basenameOf
  let message :=
    if MAX_CONFIRM_FILES < resourcesToConfirm.length then
      if resourcesToConfirm.length - MAX_CONFIRM_FILES = 1 then
        message ++ [moreFileMsg]
      else
        message ++ [moreFilesMsg (resourcesToConfirm.length - MAX_CONFIRM_FILES)]
    else message
  let message := message ++ [""]
  String.intercalate "\n" message

end Dialogs

/-- Lowercase hexadecimal digit for a value below 16. -/
def hexDigitL (n : Nat) : Char :=
  if n < 10 then Char.ofNat (48 + n) else Char.ofNat (87 + n)

/-- JSON escape of one character, as produced by `JSON.stringify`:
quote and backslash are escaped, control characters use the short
escapes or `\u00xx`, everything else is kept. -/
def jsonEscapeChar (c : Char) : List Char :=
  if c == Char.ofNat 34 then [Char.ofNat 92, Char.ofNat 34]
  else if c == Char.ofNat 92 then [Char.ofNat 92, Char.ofNat 92]
  else if c.toNat = 8 then [Char.ofNat 92, 'b']
  else if c.toNat = 9 then [Char.ofNat 92, 't']
  else if c.toNat = 10 then [Char.ofNat 92, 'n']
  else if c.toNat = 12 then [Char.ofNat 92, 'f']
  else if c.toNat = 13 then [Char.ofNat 92, 'r']
  else if c.toNat < 32 then
    [Char.ofNat 92, 'u', '0', '0', hexDigitL (c.toNat / 16), hexDigitL (c.toNat % 16)]
  else [c]

/-- JSON string literal for a string value. -/
def jsonQuote (s : String) : String :=
  String.mk (Char.ofNat 34 :: (s.data.map jsonEscapeChar).flatten ++ [Char.ofNat 34])

/-- Items of the compact `JSON.stringify` of a list of strings: the
quoted strings joined by commas. -/
def compactItems : List String → List Char
  | [] => []
  | [x] => (jsonQuote x).data
  | x :: y :: rest => (jsonQuote x).data ++ ',' :: compactItems (y :: rest)

/-- `JSON.stringify` of a list of strings (compact form, as stored by
`writeFile`): the comma-joined quoted items between square brackets. -/
def compactStringifyList (l : List String) : String :=
  String.mk ('[' :: compactItems l ++ [']'])

/-- `JSON.stringify(list, null, 2)` of a list of strings (the
two-space-indented form returned by `readFile`). -/
def prettyStringifyList (l : List String) : String :=
  match l with
  | [] => "[]"
  | _ => "[\n  " ++ String.intercalate ",\n  " (l.map jsonQuote) ++ "\n]"

/-- UTF-8 bytes of a string (`Buffer.from(s, 'utf-8')`). -/
def utf8Encode (s : String) : List Nat :=
  (s.data.map (fun c => utf8Bytes c.toNat)).flatten

/-- JSON whitespace. -/
def isJsonWs (c : Char) : Bool :=
  c == ' ' || c.toNat = 9 || c.toNat = 10 || c.toNat = 13

/-- Drop leading JSON whitespace. -/
def skipWs (cs : List Char) : List Char := cs.dropWhile isJsonWs

/-- Value of a hexadecimal digit character. -/
def hexVal (c : Char) : Option Nat :=
  let n := c.toNat
  if 48 ≤ n && n ≤ 57 then some (n - 48)
  else if 65 ≤ n && n ≤ 70 then some (n - 55)
  else if 97 ≤ n && n ≤ 102 then some (n - 87)
  else none

/-- Decoded value of a one-character JSON string escape. -/
def decodeEscape (e : Char) : Option Char :=
  if e == Char.ofNat 34 then some (Char.ofNat 34)
  else if e == Char.ofNat 92 then some (Char.ofNat 92)
  else if e == '/' then some '/'
  else if e == 'b' then some (Char.ofNat 8)
  else if e == 'f' then some (Char.ofNat 12)
  else if e == 'n' then some (Char.ofNat 10)
  else if e == 'r' then some (Char.ofNat 13)
  else if e == 't' then some (Char.ofNat 9)
  else none

/-- Body of a JSON string literal after the opening quote: decoded
characters and the input remaining after the closing quote.  Fuelled
recursion; each step consumes at least one character. -/
def parseJsonStringBody : Nat → List Char → Option (List Char × List Char)
  | 0, _ => none
  | _, [] => none
  | fuel + 1, c :: rest =>
    if c == Char.ofNat 34 then some ([], rest)
    else if c == Char.ofNat 92 then
      match rest with
      | [] => none
      | e :: rest2 =>
        if e == 'u' then
          match rest2 with
          | h1 :: h2 :: h3 :: h4 :: rest3 =>
            match hexVal h1, hexVal h2, hexVal h3, hexVal h4 with
            | some a, some b, some c2, some d =>
              (parseJsonStringBody fuel rest3).map
                (fun r => (Char.ofNat (a * 4096 + b * 256 + c2 * 16 + d) :: r.1, r.2))
            | _, _, _, _ => none
          | _ => none
        else
          (decodeEscape e).bind
            (fun d => (parseJsonStringBody fuel rest2).map (fun r => (d :: r.1, r.2)))
    else (parseJsonStringBody fuel rest).map (fun r => (c :: r.1, r.2))

/-- Elements of a JSON string array after the opening bracket, for a
non-empty array: strings separated by commas up to the closing bracket,
returning the input remaining after it. -/
def parseElems : Nat → List Char → Option (List String × List Char)
  | 0, _ => none
  | fuel + 1, cs =>
    match skipWs cs with
    | c :: rest =>
      if c == Char.ofNat 34 then
        match parseJsonStringBody (rest.length + 1) rest with
        | none => none
        | some (body, rest2) =>
          match skipWs rest2 with
          | ',' :: rest3 =>
            (parseElems fuel rest3).map (fun r => (String.mk body :: r.1, r.2))
          | ']' :: rest3 => some ([String.mk body], rest3)
          | _ => none
      else none
    | [] => none

/-- Modelled from the spec: the JSON parse of a trusted-domains value
("persists a JSON list of trusted domains"); the actual parsers
(`JSON.parse` and `parse` of `vs/base/common/json`) are external library
code not present in the sources.  Returns the list of strings denoted by
a JSON string-array document, `none` when the input is not one
("defaulting ... when parsing fails"). -/
def parseTrustedDomains (s : String) : Option (List String) :=
  match skipWs s.data with
  | c :: rest =>
    if c == '[' then
      match skipWs rest with
      | d :: rest2 =>
        if d == ']' then
          if skipWs rest2 == ([] : List Char) then some [] else none
        else
          match parseElems (rest.length + 1) rest with
          | some (l, rest3) => if skipWs rest3 == ([] : List Char) then some l else none
          | none => none
      | [] => none
    else none
  | [] => none

/-- Scopes of the workbench storage service. -/
inductive StorageScope where
  | GLOBAL
  | WORKSPACE
  deriving DecidableEq, Repr

/-- Contents of the key/value storage service: per key and scope, the
stored string. -/
abbrev Storage : Type := List ((String × StorageScope) × String)

/-- `storageService.get(key, scope)`. -/
def storageGet (st : Storage) (key : String) (scope : StorageScope) : Option String :=
  (st.find? (fun e => e.1.1 == key && e.1.2 == scope)).map (fun e => e.2)

/-- `storageService.store(key, value, scope)` (the storage service is
external library code, modelled by its key/value contract): replace the
entry for the key and scope, or append a new one. -/
def storageStore : Storage → String → String → StorageScope → Storage
  | [], key, value, scope => [((key, scope), value)]
  | e :: rest, key, value, scope =>
    if e.1.1 == key && e.1.2 == scope then (e.1, value) :: rest
    else e :: storageStore rest key value scope

namespace TrustedDomainsContentProvider

/-- Storage key used by the provider. -/
def TRUSTED_DOMAINS_STORAGE_KEY : String := "http.linkProtectionTrustedDomains"

/-- `writeFile(resource, content, opts)`: parse the content (defaulting
to the empty list on failure), re-serialize it, and store it under the
trusted-domains key in global scope.  The byte-to-string decoding of
`content.toString()` is abstracted by taking the content as a string. -/
def writeFile (st : Storage) (content : String) : Storage :=
  let trustedDomainsd := (parseTrustedDomains content).getD []
  storageStore st TRUSTED_DOMAINS_STORAGE_KEY (compactStringifyList trustedDomainsd) .GLOBAL

/-- `readFile(resource)`: start from the product's default trusted
domains (`productService.linkProtectionTrustedDomains`, abstracted as
the `defaults` argument, `none` when undefined); when storage holds a
truthy value that parses, use the parsed list instead; return the UTF-8
bytes of the two-space-indented JSON serialization. -/
def readFile (defaults : Option (List String)) (st : Storage) : List Nat :=
  let trustedDomains := defaults.getD []
  let trustedDomains :=
    match storageGet st TRUSTED_DOMAINS_STORAGE_KEY .GLOBAL with
    | some src => if src == "" then trustedDomains else (parseTrustedDomains src).getD trustedDomains
    | none => trustedDomains
  utf8Encode (prettyStringifyList trustedDomains)

end TrustedDomainsContentProvider

namespace PollingURLCallbackProvider

/-- Rendered form of one query entry: `key=encodeURIComponent(value)`. -/
def entryStr (kv : String × String) : String :=
  kv.1 ++ "=" ++ encodeURIComponent kv.2

/-- Strings joined by ampersands. -/
def joinAmp : List String → String
  | [] => ""
  | [x] => x
  | x :: y :: rest => x ++ "&" ++ joinAmp (y :: rest)

/-- Expected query entries contributed by one option component: one entry
when the component is supplied, none otherwise. -/
def optEntry (k : String) : Option String → List (String × String)
  | none => []
  | some s => [(k, s)]

/-- Normalization replacing an empty-string (falsy) component by an
absent one. -/
def squashOpt : Option String → Option String
  | none => none
  | some s => if s = "" then none else some s

/-- Component-wise falsy normalization of options. -/
def squash (o : PartialUriComponents) : PartialUriComponents :=
  { scheme := squashOpt o.scheme
    authority := squashOpt o.authority
    path := squashOpt o.path
    query := squashOpt o.query
    fragment := squashOpt o.fragment }

end PollingURLCallbackProvider

namespace PollingURLCallbackProvider

theorem stepTicket_not_polling (s : TicketState) (c : Cycle) (h : ¬s.status = .polling) :
    stepTicket s c = (s, []) := by
  simp [stepTicket, h]

theorem runTicket_not_polling (s : TicketState) (cs : List Cycle) (h : ¬s.status = .polling) :
    runTicket s cs = (s, []) := by
  induction cs with
  | nil => rfl
  | cons c rest ih => simp [runTicket, stepTicket_not_polling s c h, ih]

theorem runTicket_append (s : TicketState) (cs ds : List Cycle) :
    runTicket s (cs ++ ds) =
      ((runTicket (runTicket s cs).1 ds).1,
        (runTicket s cs).2 ++ (runTicket (runTicket s cs).1 ds).2) := by
  induction cs generalizing s with
  | nil => simp [runTicket]
  | cons c rest ih => simp [runTicket, ih, List.append_assoc]

theorem stepTicket_pres (s : TicketState) (c : Cycle) :
    (stepTicket s c).1.startTime = s.startTime ∧
      (stepTicket s c).1.requestId = s.requestId := by
  unfold stepTicket
  repeat' split
  all_goals exact ⟨rfl, rfl⟩

theorem runTicket_pres (s : TicketState) (cs : List Cycle) :
    (runTicket s cs).1.startTime = s.startTime ∧
      (runTicket s cs).1.requestId = s.requestId := by
  induction cs generalizing s with
  | nil => exact ⟨rfl, rfl⟩
  | cons c rest ih =>
    have h1 := stepTicket_pres s c
    have h2 := ih (stepTicket s c).1
    simp only [runTicket]
    exact ⟨h2.1.trans h1.1, h2.2.trans h1.2⟩

theorem stepTicket_empty_continue (s : TicketState) (n : Nat) (hs : s.status = .polling)
    (ht : n - s.startTime < FETCH_TIMEOUT) :
    stepTicket s ⟨n, .empty⟩ =
      ({ s with issued := s.issued ++ [s.issueTime], issueTime := n + FETCH_INTERVAL }, []) := by
  simp [stepTicket, hs, ht]

theorem stepTicket_empty_expire (s : TicketState) (n : Nat) (hs : s.status = .polling)
    (ht : ¬n - s.startTime < FETCH_TIMEOUT) :
    stepTicket s ⟨n, .empty⟩ =
      ({ s with issued := s.issued ++ [s.issueTime], status := .expired }, []) := by
  simp [stepTicket, hs, ht]

theorem stepTicket_ok (s : TicketState) (n : Nat) (payload : UriComponents)
    (hs : s.status = .polling) :
    stepTicket s ⟨n, .nonEmpty (.ok payload)⟩ =
      ({ s with issued := s.issued ++ [s.issueTime], status := .delivered }, [payload]) := by
  simp [stepTicket, hs]

theorem stepTicket_parse_error (s : TicketState) (n : Nat) (msg : String)
    (hs : s.status = .polling) :
    stepTicket s ⟨n, .nonEmpty (.error msg)⟩ =
      ({ s with issued := s.issued ++ [s.issueTime], status := .dropped, logged := s.logged + 1 }, []) := by
  simp [stepTicket, hs]

theorem runTicket_polling_iff (s : TicketState) (cs : List Cycle) (hs : s.status = .polling) :
    (runTicket s cs).1.status = .polling ↔
      ∀ c ∈ cs, c.resp = .empty ∧ c.now - s.startTime < FETCH_TIMEOUT := by
  induction cs generalizing s with
  | nil => simpa [runTicket]
  | cons c rest ih =>
    rcases c with ⟨n, resp⟩
    rcases resp with _ | e
    · by_cases ht : n - s.startTime < FETCH_TIMEOUT
      · rw [runTicket]
        simp only [stepTicket_empty_continue s n hs ht]
        rw [ih { s with issued := s.issued ++ [s.issueTime], issueTime := n + FETCH_INTERVAL } hs]
        simp [ht]
      · rw [runTicket]
        simp only [stepTicket_empty_expire s n hs ht]
        rw [runTicket_not_polling _ _ (by simp)]
        simp [ht]
    · rcases e with msg | payload
      · rw [runTicket]
        simp only [stepTicket_parse_error s n msg hs]
        rw [runTicket_not_polling _ _ (by simp)]
        simp
      · rw [runTicket]
        simp only [stepTicket_ok s n payload hs]
        rw [runTicket_not_polling _ _ (by simp)]
        simp

theorem runTicket_through_empties (pre : List Cycle) (s : TicketState) (rest : List Cycle)
    (hs : s.status = .polling)
    (hpre : ∀ c ∈ pre, c.resp = .empty ∧ c.now - s.startTime < FETCH_TIMEOUT) :
    ∃ s', runTicket s (pre ++ rest) = runTicket s' rest ∧ s'.status = .polling ∧
      s'.startTime = s.startTime ∧ s'.requestId = s.requestId ∧ s'.logged = s.logged ∧
      s'.issued.length = s.issued.length + pre.length := by
  induction pre generalizing s with
  | nil => exact ⟨s, by simp, hs, rfl, rfl, rfl, rfl⟩
  | cons c pre' ih =>
    rcases c with ⟨n, resp⟩
    have he : resp = .empty := (hpre ⟨n, resp⟩ (by simp)).1
    have ht : n - s.startTime < FETCH_TIMEOUT := (hpre ⟨n, resp⟩ (by simp)).2
    subst he
    rw [List.cons_append, runTicket]
    simp only [stepTicket_empty_continue s n hs ht]
    obtain ⟨s', heq, hst, hstart, hrid, hlog, hlen⟩ :=
      ih { s with issued := s.issued ++ [s.issueTime], issueTime := n + FETCH_INTERVAL } hs
        (fun c hc => hpre c (List.mem_cons_of_mem _ hc))
    refine ⟨s', ?_, hst, hstart, hrid, hlog, ?_⟩
    · simp [heq]
    · simp at hlen ⊢
      omega

theorem runTicket_terminal_route (s : TicketState) (cs : List Cycle) (hs : s.status = .polling) :
    ((runTicket s cs).1.status = .delivered ∨ (runTicket s cs).1.status = .dropped →
        ∃ c ∈ cs, ¬c.resp = .empty) ∧
    ((runTicket s cs).1.status = .expired →
        ∃ c ∈ cs, c.resp = .empty ∧ FETCH_TIMEOUT ≤ c.now - s.startTime) := by
  induction cs generalizing s with
  | nil => simp [runTicket, hs]
  | cons c rest ih =>
    rcases c with ⟨n, resp⟩
    rcases resp with _ | e
    · by_cases ht : n - s.startTime < FETCH_TIMEOUT
      · rw [runTicket]
        simp only [stepTicket_empty_continue s n hs ht]
        have hih := ih { s with issued := s.issued ++ [s.issueTime], issueTime := n + FETCH_INTERVAL } hs
        constructor
        · intro h
          obtain ⟨c, hc, hne⟩ := hih.1 (by simpa using h)
          exact ⟨c, List.mem_cons_of_mem _ hc, hne⟩
        · intro h
          obtain ⟨c, hc, hcc⟩ := hih.2 (by simpa using h)
          exact ⟨c, List.mem_cons_of_mem _ hc, hcc⟩
      · rw [runTicket]
        simp only [stepTicket_empty_expire s n hs ht]
        rw [runTicket_not_polling _ _ (by simp)]
        refine ⟨by simp, fun _ => ⟨⟨n, .empty⟩, by simp, rfl, ?_⟩⟩
        exact Nat.le_of_not_lt ht
    · rcases e with msg | payload
      · rw [runTicket]
        simp only [stepTicket_parse_error s n msg hs]
        rw [runTicket_not_polling _ _ (by simp)]
        exact ⟨fun _ => ⟨⟨n, .nonEmpty (.error msg)⟩, by simp, by simp⟩, by simp⟩
      · rw [runTicket]
        simp only [stepTicket_ok s n payload hs]
        rw [runTicket_not_polling _ _ (by simp)]
        exact ⟨fun _ => ⟨⟨n, .nonEmpty (.ok payload)⟩, by simp, by simp⟩, by simp⟩

theorem runTicket_all_empty (cs : List Cycle) (s : TicketState)
    (hs : s.status = .polling)
    (hv : ValidRun s cs)
    (hemp : ∀ c ∈ cs, c.resp = .empty)
    (hb : ∀ t ∈ s.issued, t < s.startTime + FETCH_TIMEOUT + FETCH_INTERVAL)
    (hit : s.issueTime < s.startTime + FETCH_TIMEOUT + FETCH_INTERVAL)
    (hch : List.Chain' (fun a b => a + FETCH_INTERVAL ≤ b) (s.issued ++ [s.issueTime])) :
    (runTicket s cs).2 = [] ∧ (runTicket s cs).1.logged = s.logged ∧
    ((runTicket s cs).1.status = .polling ∨ (runTicket s cs).1.status = .expired) ∧
    List.Chain' (fun a b => a + FETCH_INTERVAL ≤ b) (runTicket s cs).1.issued ∧
    (∀ t ∈ (runTicket s cs).1.issued, t < s.startTime + FETCH_TIMEOUT + FETCH_INTERVAL) := by
  induction cs generalizing s with
  | nil => exact ⟨rfl, rfl, Or.inl hs, (List.chain'_append.mp hch).1, hb⟩
  | cons c rest ih =>
    rcases c with ⟨n, resp⟩
    have he : resp = .empty := hemp ⟨n, resp⟩ (by simp)
    subst he
    simp only [ValidRun] at hv
    have hle : s.issueTime ≤ n := hv.1 hs
    by_cases ht : n - s.startTime < FETCH_TIMEOUT
    · rw [runTicket]
      simp only [stepTicket_empty_continue s n hs ht]
      have hv' : ValidRun { s with issued := s.issued ++ [s.issueTime], issueTime := n + FETCH_INTERVAL } rest := by
        have := hv.2
        rwa [stepTicket_empty_continue s n hs ht] at this
      have hstep := ih { s with issued := s.issued ++ [s.issueTime], issueTime := n + FETCH_INTERVAL } hs hv'
        (fun c hc => hemp c (List.mem_cons_of_mem _ hc))
        (by
          intro t htm
          simp only [List.mem_append, List.mem_singleton] at htm
          rcases htm with h | h
          · exact hb t h
          · simpa [h] using hit)
        (by
          simp only [FETCH_TIMEOUT, FETCH_INTERVAL] at ht ⊢
          omega)
        (by
          rw [List.chain'_append]
          refine ⟨hch, List.chain'_singleton _, ?_⟩
          intro x hx y hy
          rw [List.getLast?_concat] at hx
          simp only [Option.mem_def, Option.some.injEq] at hx
          simp only [List.head?_cons, Option.mem_def, Option.some.injEq] at hy
          subst hx
          subst hy
          omega)
      simpa using hstep
    · rw [runTicket]
      simp only [stepTicket_empty_expire s n hs ht]
      rw [runTicket_not_polling _ _ (by simp)]
      refine ⟨by simp, rfl, Or.inr rfl, hch, ?_⟩
      intro t htm
      simp only [List.mem_append, List.mem_singleton] at htm
      rcases htm with h | h
      · exact hb t h
      · simpa [h] using hit

theorem runTwo_proj (trace : List (Bool × Cycle)) (sA sB : TicketState) :
    (runTwo sA sB trace).1 = (runTicket sA (cyclesFor true trace)).1 ∧
    (runTwo sA sB trace).2.1 = (runTicket sB (cyclesFor false trace)).1 := by
  induction trace generalizing sA sB with
  | nil => exact ⟨rfl, rfl⟩
  | cons wc rest ih =>
    rcases wc with ⟨who, c⟩
    cases who
    · constructor
      · simp only [runTwo, cyclesFor, List.filterMap_cons]
        simp only [cyclesFor] at ih
        simp [(ih sA (stepTicket sB c).1).1]
      · simp only [runTwo, cyclesFor, List.filterMap_cons]
        simp only [cyclesFor] at ih
        simp [runTicket, (ih sA (stepTicket sB c).1).2]
    · constructor
      · simp only [runTwo, cyclesFor, List.filterMap_cons]
        simp only [cyclesFor] at ih
        simp [runTicket, (ih (stepTicket sA c).1 sB).1]
      · simp only [runTwo, cyclesFor, List.filterMap_cons]
        simp only [cyclesFor] at ih
        simp [(ih (stepTicket sA c).1 sB).2]

/-- C1: for every poll cycle of a ticket whose HTTP response body is non-empty and
parses as JSON, the `onCallback` broadcast fires exactly once with the parsed URI
components as payload, and no further poll requests are ever issued for that
ticket's requestId: running the sequence over any empty prefix `pre`, the
delivering cycle, and arbitrary later cycles `post` fires exactly `[payload]`,
ends in the terminal `delivered` status, issues exactly `pre.length + 1`
requests (none for `post`), and logs nothing. -/
theorem poll_delivery_fires_once (rid : String) (st tOk : Nat) (payload : UriComponents)
    (pre post : List Cycle)
    (hpre : ∀ c ∈ pre, c.resp = .empty ∧ c.now - st < FETCH_TIMEOUT) :
    (runTicket (initTicket rid st) (pre ++ ⟨tOk, .nonEmpty (.ok payload)⟩ :: post)).2 = [payload] ∧
      (runTicket (initTicket rid st) (pre ++ ⟨tOk, .nonEmpty (.ok payload)⟩ :: post)).1.status = .delivered ∧
      (runTicket (initTicket rid st) (pre ++ ⟨tOk, .nonEmpty (.ok payload)⟩ :: post)).1.issued.length = pre.length + 1 ∧
      (runTicket (initTicket rid st) (pre ++ ⟨tOk, .nonEmpty (.ok payload)⟩ :: post)).1.logged = 0 := by
  obtain ⟨s', heq, hst, hstart, hrid, hlog, hlen⟩ :=
    runTicket_through_empties pre (initTicket rid st) (⟨tOk, .nonEmpty (.ok payload)⟩ :: post) rfl hpre
  rw [heq, runTicket]
  simp only [stepTicket_ok s' tOk payload hst]
  rw [runTicket_not_polling _ _ (by simp)]
  refine ⟨rfl, rfl, ?_, hlog⟩
  simp [initTicket] at hlen ⊢
  omega

/-- C1 witness: a concrete run with one empty cycle, a delivering cycle, and one
trailing cycle that is never consumed. -/
theorem poll_delivery_fires_once_witness :
    (runTicket (initTicket "r" 0) ([⟨100, .empty⟩] ++ ⟨600, .nonEmpty (.ok ⟨"vscode", "foo", "/bar", "", ""⟩)⟩ :: [⟨1100, .empty⟩])).2 = [⟨"vscode", "foo", "/bar", "", ""⟩] ∧
      (runTicket (initTicket "r" 0) ([⟨100, .empty⟩] ++ ⟨600, .nonEmpty (.ok ⟨"vscode", "foo", "/bar", "", ""⟩)⟩ :: [⟨1100, .empty⟩])).1.status = .delivered ∧
      (runTicket (initTicket "r" 0) ([⟨100, .empty⟩] ++ ⟨600, .nonEmpty (.ok ⟨"vscode", "foo", "/bar", "", ""⟩)⟩ :: [⟨1100, .empty⟩])).1.issued.length = [(⟨100, .empty⟩ : Cycle)].length + 1 ∧
      (runTicket (initTicket "r" 0) ([⟨100, .empty⟩] ++ ⟨600, .nonEmpty (.ok ⟨"vscode", "foo", "/bar", "", ""⟩)⟩ :: [⟨1100, .empty⟩])).1.logged = 0 :=
  poll_delivery_fires_once "r" 0 600 ⟨"vscode", "foo", "/bar", "", ""⟩ [⟨100, .empty⟩] [⟨1100, .empty⟩] (by decide)

/-- C3: for every poll cycle whose HTTP response body is non-empty but fails to
parse as JSON, the parse error is caught and logged (the run is a total function
and its error count rises to one) while the `onCallback` event does not fire, and
the ticket's sequence issues no further poll requests: the run ends in the
terminal `dropped` status with exactly `pre.length + 1` requests issued. -/
theorem poll_parse_error_drops (rid : String) (st tErr : Nat) (msg : String)
    (pre post : List Cycle)
    (hpre : ∀ c ∈ pre, c.resp = .empty ∧ c.now - st < FETCH_TIMEOUT) :
    (runTicket (initTicket rid st) (pre ++ ⟨tErr, .nonEmpty (.error msg)⟩ :: post)).2 = [] ∧
      (runTicket (initTicket rid st) (pre ++ ⟨tErr, .nonEmpty (.error msg)⟩ :: post)).1.status = .dropped ∧
      (runTicket (initTicket rid st) (pre ++ ⟨tErr, .nonEmpty (.error msg)⟩ :: post)).1.issued.length = pre.length + 1 ∧
      (runTicket (initTicket rid st) (pre ++ ⟨tErr, .nonEmpty (.error msg)⟩ :: post)).1.logged = 1 := by
  obtain ⟨s', heq, hst, hstart, hrid, hlog, hlen⟩ :=
    runTicket_through_empties pre (initTicket rid st) (⟨tErr, .nonEmpty (.error msg)⟩ :: post) rfl hpre
  rw [heq, runTicket]
  simp only [stepTicket_parse_error s' tErr msg hst]
  rw [runTicket_not_polling _ _ (by simp)]
  refine ⟨rfl, rfl, ?_, ?_⟩
  · simp [initTicket] at hlen ⊢
    omega
  · simp [initTicket] at hlog ⊢
    omega

/-- C3 witness: a concrete run with one empty cycle, a malformed-body cycle, and a
trailing cycle that is never consumed. -/
theorem poll_parse_error_drops_witness :
    (runTicket (initTicket "r" 0) ([⟨100, .empty⟩] ++ ⟨600, .nonEmpty (.error "SyntaxError")⟩ :: [⟨1100, .empty⟩])).2 = [] ∧
      (runTicket (initTicket "r" 0) ([⟨100, .empty⟩] ++ ⟨600, .nonEmpty (.error "SyntaxError")⟩ :: [⟨1100, .empty⟩])).1.status = .dropped ∧
      (runTicket (initTicket "r" 0) ([⟨100, .empty⟩] ++ ⟨600, .nonEmpty (.error "SyntaxError")⟩ :: [⟨1100, .empty⟩])).1.issued.length = [(⟨100, .empty⟩ : Cycle)].length + 1 ∧
      (runTicket (initTicket "r" 0) ([⟨100, .empty⟩] ++ ⟨600, .nonEmpty (.error "SyntaxError")⟩ :: [⟨1100, .empty⟩])).1.logged = 1 :=
  poll_parse_error_drops "r" 0 600 "SyntaxError" [⟨100, .empty⟩] [⟨1100, .empty⟩] (by decide)

/-- C4: a ticket's poll sequence reaches a terminal state exactly once, either by
receiving a non-empty response body or by failing the 5-minute timeout check, and
never by both: once the status leaves `polling`, extending the input with further
cycles changes nothing (the sequence has ended for good); the status is still
`polling` exactly when every cycle so far was empty and within the timeout; a
`delivered` or `dropped` end exhibits a non-empty body, an `expired` end exhibits
an empty body past the timeout — mutually exclusive conditions. -/
theorem poll_terminal_unique (rid : String) (st : Nat) (cs : List Cycle) :
    (¬(runTicket (initTicket rid st) cs).1.status = .polling →
        ∀ extra, runTicket (initTicket rid st) (cs ++ extra) = runTicket (initTicket rid st) cs) ∧
      ((runTicket (initTicket rid st) cs).1.status = .polling ↔
        ∀ c ∈ cs, c.resp = .empty ∧ c.now - st < FETCH_TIMEOUT) ∧
      ((runTicket (initTicket rid st) cs).1.status = .delivered ∨
          (runTicket (initTicket rid st) cs).1.status = .dropped →
        ∃ c ∈ cs, ¬c.resp = .empty) ∧
      ((runTicket (initTicket rid st) cs).1.status = .expired →
        ∃ c ∈ cs, c.resp = .empty ∧ FETCH_TIMEOUT ≤ c.now - st) := by
  refine ⟨?_, runTicket_polling_iff (initTicket rid st) cs rfl,
    (runTicket_terminal_route (initTicket rid st) cs rfl).1,
    (runTicket_terminal_route (initTicket rid st) cs rfl).2⟩
  intro h extra
  rw [runTicket_append, runTicket_not_polling _ extra h]
  simp

/-- C4 witness: a delivered ticket's run absorbs any further cycles. -/
theorem poll_terminal_unique_witness :
    runTicket (initTicket "r" 0) ([⟨0, .nonEmpty (.ok ⟨"a", "b", "c", "d", "e"⟩)⟩] ++ [⟨500, .empty⟩]) =
      runTicket (initTicket "r" 0) [⟨0, .nonEmpty (.ok ⟨"a", "b", "c", "d", "e"⟩)⟩] :=
  (poll_terminal_unique "r" 0 [⟨0, .nonEmpty (.ok ⟨"a", "b", "c", "d", "e"⟩)⟩]).1 (by decide) [⟨500, .empty⟩]

/-- C2 counterexample: the claim "no poll request is issued once 300000 ms have
elapsed since startTime" is false on the code.  In the valid all-empty run below,
the first request (issued at 0) completes at 299999 ms; the timeout check passes
(299999 < 300000), so `setTimeout` issues another request 500 ms later, at
300499 ms — after five minutes have elapsed. -/
theorem poll_empty_responses_cex :
    ValidRun (initTicket "r" 0) [⟨299999, .empty⟩, ⟨300499, .empty⟩] ∧
      (∀ c ∈ [(⟨299999, .empty⟩ : Cycle), ⟨300499, .empty⟩], c.resp = .empty) ∧
      300499 ∈ (runTicket (initTicket "r" 0) [⟨299999, .empty⟩, ⟨300499, .empty⟩]).1.issued ∧
      0 + FETCH_TIMEOUT < 300499 := by
  decide

/-- C2 (amended): for a ticket whose server never returns a non-empty body, in
any valid run the provider issues consecutive poll requests at least
`FETCH_INTERVAL` (500 ms) apart, never fires `onCallback` and logs nothing
(expiry is silent, ending only in `polling` or `expired`), and every request is
issued strictly before `startTime + FETCH_TIMEOUT + FETCH_INTERVAL`; a request
may be issued up to one interval after the 5-minute deadline itself, because the
timeout check precedes the 500 ms delay. -/
theorem poll_empty_responses_bounds (rid : String) (st : Nat) (cs : List Cycle)
    (hv : ValidRun (initTicket rid st) cs)
    (hemp : ∀ c ∈ cs, c.resp = .empty) :
    (runTicket (initTicket rid st) cs).2 = [] ∧
      (runTicket (initTicket rid st) cs).1.logged = 0 ∧
      ((runTicket (initTicket rid st) cs).1.status = .polling ∨
        (runTicket (initTicket rid st) cs).1.status = .expired) ∧
      List.Chain' (fun a b => a + FETCH_INTERVAL ≤ b) (runTicket (initTicket rid st) cs).1.issued ∧
      (∀ t ∈ (runTicket (initTicket rid st) cs).1.issued, t < st + FETCH_TIMEOUT + FETCH_INTERVAL) := by
  exact runTicket_all_empty cs (initTicket rid st) rfl hv hemp
    (fun t ht => absurd ht (List.not_mem_nil t))
    (by simp only [initTicket, FETCH_TIMEOUT, FETCH_INTERVAL]; omega)
    (by simp [initTicket])

/-- C2 (amended) witness: a concrete valid all-empty run. -/
theorem poll_empty_responses_bounds_witness :
    (runTicket (initTicket "r" 0) [⟨0, .empty⟩, ⟨500, .empty⟩]).2 = [] ∧
      (runTicket (initTicket "r" 0) [⟨0, .empty⟩, ⟨500, .empty⟩]).1.logged = 0 ∧
      ((runTicket (initTicket "r" 0) [⟨0, .empty⟩, ⟨500, .empty⟩]).1.status = .polling ∨
        (runTicket (initTicket "r" 0) [⟨0, .empty⟩, ⟨500, .empty⟩]).1.status = .expired) ∧
      List.Chain' (fun a b => a + FETCH_INTERVAL ≤ b) (runTicket (initTicket "r" 0) [⟨0, .empty⟩, ⟨500, .empty⟩]).1.issued ∧
      (∀ t ∈ (runTicket (initTicket "r" 0) [⟨0, .empty⟩, ⟨500, .empty⟩]).1.issued, t < 0 + FETCH_TIMEOUT + FETCH_INTERVAL) :=
  poll_empty_responses_bounds "r" 0 [⟨0, .empty⟩, ⟨500, .empty⟩] (by decide) (by decide)

/-- C6: two tickets pending at the same time poll independently.  In any
interleaved execution, ticket B's final state equals the state of B's standalone
run over exactly its own cycles — so a delivery to ticket A (any cycles tagged
for A, including delivering ones) leaves B's pending state, `startTime`,
`requestId`, and timeout countdown unchanged; symmetrically for A. -/
theorem poll_two_tickets_independent (sA sB : TicketState) (trace : List (Bool × Cycle)) :
    (runTwo sA sB trace).2.1 = (runTicket sB (cyclesFor false trace)).1 ∧
      (runTwo sA sB trace).1 = (runTicket sA (cyclesFor true trace)).1 ∧
      (runTwo sA sB trace).2.1.startTime = sB.startTime ∧
      (runTwo sA sB trace).2.1.requestId = sB.requestId := by
  obtain ⟨hA, hB⟩ := runTwo_proj trace sA sB
  refine ⟨hB, hA, ?_, ?_⟩
  · rw [hB]
    exact (runTicket_pres sB (cyclesFor false trace)).1
  · rw [hB]
    exact (runTicket_pres sB (cyclesFor false trace)).2

theorem joinAmp_cons_append (a b : String) (l : List String) :
    joinAmp ((a ++ "&" ++ b) :: l) = a ++ "&" ++ joinAmp (b :: l) := by
  cases l with
  | nil => rfl
  | cons x xs => simp [joinAmp, String.append_assoc]

theorem renderQueryFrom_eq (l : List (String × String)) (acc : String) :
    renderQueryFrom acc l = joinAmp (acc :: l.map entryStr) := by
  induction l generalizing acc with
  | nil => rfl
  | cons kv rest ih =>
    rw [renderQueryFrom, ih]
    have hacc : acc ++ "&" ++ kv.1 ++ "=" ++ encodeURIComponent kv.2 =
        acc ++ "&" ++ entryStr kv := by
      simp [entryStr, String.append_assoc]
    rw [hacc, joinAmp_cons_append]
    rfl

theorem renderQuery_cons (kv : String × String) (l : List (String × String)) :
    renderQuery (kv :: l) = some (joinAmp ((kv :: l).map entryStr)) := by
  rw [renderQuery, renderQueryFrom_eq]
  rfl

theorem mapSet_of_new_key (m : List (String × String)) (k v : String)
    (h : m.any (fun kv => kv.1 == k) = false) : mapSet m k v = m ++ [(k, v)] := by
  simp [mapSet, h]

theorem addComponent_eq_append (m : List (String × String)) (k : String) (v : Option String)
    (h : m.any (fun kv => kv.1 == k) = false) :
    addComponent m k v = m ++ optEntry k (squashOpt v) := by
  cases v with
  | none => simp [addComponent, optEntry, squashOpt]
  | some s =>
    by_cases hs : s = ""
    · simp [addComponent, optEntry, squashOpt, hs]
    · simp [addComponent, optEntry, squashOpt, hs, mapSet_of_new_key m k s h]

theorem optEntry_any_eq_false (k' : String) (v : Option String) (k : String)
    (h : (k' == k) = false) : (optEntry k' v).any (fun kv => kv.1 == k) = false := by
  cases v <;> simp [optEntry, h]

theorem any_key_cons (k' v : String) (m : List (String × String)) (k : String)
    (h1 : (k' == k) = false) (h2 : m.any (fun kv => kv.1 == k) = false) :
    (((k', v)) :: m).any (fun kv => kv.1 == k) = false := by
  simp [List.any_cons, h1, h2]

theorem any_key_append (a b : List (String × String)) (k : String)
    (h1 : a.any (fun kv => kv.1 == k) = false) (h2 : b.any (fun kv => kv.1 == k) = false) :
    (a ++ b).any (fun kv => kv.1 == k) = false := by
  simp [List.any_append, h1, h2]

theorem createQueryValues_eq (rid : String) (o : PartialUriComponents) :
    createQueryValues rid (some o) =
      (REQUEST_ID, rid) :: (optEntry SCHEME (squashOpt o.scheme) ++
        optEntry AUTHORITY (squashOpt o.authority) ++ optEntry PATH (squashOpt o.path) ++
        optEntry QUERY (squashOpt o.query) ++ optEntry FRAGMENT (squashOpt o.fragment)) := by
  have b0 : ([((REQUEST_ID, rid))] : List (String × String)).any (fun kv => kv.1 == SCHEME) = false :=
    any_key_cons _ _ _ _ (by decide) rfl
  have b1 : (([((REQUEST_ID, rid))] : List (String × String)) ++ optEntry SCHEME (squashOpt o.scheme)).any (fun kv => kv.1 == AUTHORITY) = false :=
    any_key_append _ _ _ (any_key_cons _ _ _ _ (by decide) rfl) (optEntry_any_eq_false _ _ _ (by decide))
  have b2 : (([((REQUEST_ID, rid))] : List (String × String)) ++ optEntry SCHEME (squashOpt o.scheme) ++ optEntry AUTHORITY (squashOpt o.authority)).any (fun kv => kv.1 == PATH) = false :=
    any_key_append _ _ _ (any_key_append _ _ _ (any_key_cons _ _ _ _ (by decide) rfl) (optEntry_any_eq_false _ _ _ (by decide))) (optEntry_any_eq_false _ _ _ (by decide))
  have b3 : (([((REQUEST_ID, rid))] : List (String × String)) ++ optEntry SCHEME (squashOpt o.scheme) ++ optEntry AUTHORITY (squashOpt o.authority) ++ optEntry PATH (squashOpt o.path)).any (fun kv => kv.1 == QUERY) = false :=
    any_key_append _ _ _ (any_key_append _ _ _ (any_key_append _ _ _ (any_key_cons _ _ _ _ (by decide) rfl) (optEntry_any_eq_false _ _ _ (by decide))) (optEntry_any_eq_false _ _ _ (by decide))) (optEntry_any_eq_false _ _ _ (by decide))
  have b4 : (([((REQUEST_ID, rid))] : List (String × String)) ++ optEntry SCHEME (squashOpt o.scheme) ++ optEntry AUTHORITY (squashOpt o.authority) ++ optEntry PATH (squashOpt o.path) ++ optEntry QUERY (squashOpt o.query)).any (fun kv => kv.1 == FRAGMENT) = false :=
    any_key_append _ _ _ (any_key_append _ _ _ (any_key_append _ _ _ (any_key_append _ _ _ (any_key_cons _ _ _ _ (by decide) rfl) (optEntry_any_eq_false _ _ _ (by decide))) (optEntry_any_eq_false _ _ _ (by decide))) (optEntry_any_eq_false _ _ _ (by decide))) (optEntry_any_eq_false _ _ _ (by decide))
  show addComponent (addComponent (addComponent (addComponent (addComponent ([((REQUEST_ID, rid))] : List (String × String)) SCHEME o.scheme) AUTHORITY o.authority) PATH o.path) QUERY o.query) FRAGMENT o.fragment = _
  rw [addComponent_eq_append _ SCHEME o.scheme b0,
    addComponent_eq_append _ AUTHORITY o.authority b1,
    addComponent_eq_append _ PATH o.path b2,
    addComponent_eq_append _ QUERY o.query b3,
    addComponent_eq_append _ FRAGMENT o.fragment b4]
  simp [List.append_assoc]

theorem squashOpt_of_ne_empty (v : Option String) (hv : ¬v = some "") : squashOpt v = v := by
  cases v with
  | none => rfl
  | some s =>
    have hs : ¬s = "" := fun h => hv (by rw [h])
    simp [squashOpt, hs]

theorem squashOpt_idem (v : Option String) : squashOpt (squashOpt v) = squashOpt v := by
  cases v with
  | none => rfl
  | some s =>
    by_cases hs : s = "" <;> simp [squashOpt, hs]

theorem squashOpt_ne_some_empty (v : Option String) (s : String)
    (h : squashOpt v = some s) : ¬s = "" := by
  cases v with
  | none => exact absurd h (by simp [squashOpt])
  | some t =>
    by_cases ht : t = ""
    · exact absurd h (by simp [squashOpt, ht])
    · simp [squashOpt, ht] at h
      exact h ▸ ht

theorem mem_optEntry (kv : String × String) (k : String) (v : Option String) :
    kv ∈ optEntry k v ↔ ∃ s, v = some s ∧ kv = (k, s) := by
  cases v <;> simp [optEntry]

/-- C5: for every call to `create(options)` whose supplied components are
non-empty, the returned URI keeps the current origin (scheme and authority of the
location) with path `/callback`, and its query string consists of the generated
`requestId` under `vscode-requestId` followed by, for exactly those components
supplied in the options, the corresponding `vscode-`-prefixed key with the value
URL-encoded. -/
theorem create_query_exact (loc : UriComponents) (rid : String) (o : PartialUriComponents)
    (h1 : ¬o.scheme = some "") (h2 : ¬o.authority = some "") (h3 : ¬o.path = some "")
    (h4 : ¬o.query = some "") (h5 : ¬o.fragment = some "") :
    (create loc rid (some o)).path = "/callback" ∧
      (create loc rid (some o)).scheme = loc.scheme ∧
      (create loc rid (some o)).authority = loc.authority ∧
      (create loc rid (some o)).fragment = loc.fragment ∧
      (create loc rid (some o)).query =
        joinAmp (((REQUEST_ID, rid) :: (optEntry SCHEME o.scheme ++
          optEntry AUTHORITY o.authority ++ optEntry PATH o.path ++
          optEntry QUERY o.query ++ optEntry FRAGMENT o.fragment)).map entryStr) := by
  have hq := createQueryValues_eq rid o
  rw [squashOpt_of_ne_empty o.scheme h1, squashOpt_of_ne_empty o.authority h2,
    squashOpt_of_ne_empty o.path h3, squashOpt_of_ne_empty o.query h4,
    squashOpt_of_ne_empty o.fragment h5] at hq
  unfold create doCreateUri
  rw [hq, renderQuery_cons]
  exact ⟨rfl, rfl, rfl, rfl, rfl⟩

/-- C5 witness: creating a ticket with scheme `vscode` and path `/bar` yields the
`/callback` URI on the current origin whose query carries the requestId, the
scheme, and the URL-encoded path, with no authority, query, or fragment keys. -/
theorem create_query_exact_witness :
    (create ⟨"https", "example.com", "/x", "q0", "f0"⟩ "abc123"
        (some ⟨some "vscode", none, some "/bar", none, none⟩)).query =
      "vscode-requestId=abc123&vscode-scheme=vscode&vscode-path=%2Fbar" ∧
    (create ⟨"https", "example.com", "/x", "q0", "f0"⟩ "abc123"
        (some ⟨some "vscode", none, some "/bar", none, none⟩)).path = "/callback" ∧
    (create ⟨"https", "example.com", "/x", "q0", "f0"⟩ "abc123"
        (some ⟨some "vscode", none, some "/bar", none, none⟩)).scheme = "https" ∧
    (create ⟨"https", "example.com", "/x", "q0", "f0"⟩ "abc123"
        (some ⟨some "vscode", none, some "/bar", none, none⟩)).authority = "example.com" := by
  have h := create_query_exact ⟨"https", "example.com", "/x", "q0", "f0"⟩ "abc123"
    ⟨some "vscode", none, some "/bar", none, none⟩
    (by decide) (by decide) (by decide) (by decide) (by decide)
  exact ⟨h.2.2.2.2.trans (by decide), h.1, h.2.1, h.2.2.1⟩

/-- C7: an option component supplied as the empty string (falsy in JavaScript) is
omitted from the created URI entirely, indistinguishably from the component being
absent: `create` is unchanged under replacing empty-string components by absent
ones, omitting the options object equals passing an empty one, and every
component entry of the query-value map (every key other than `vscode-requestId`)
carries a non-empty value. -/
theorem create_falsy_omitted (loc : UriComponents) (rid : String) (o : PartialUriComponents) :
    create loc rid (some o) = create loc rid (some (squash o)) ∧
      create loc rid none = create loc rid (some {}) ∧
      (∀ kv ∈ createQueryValues rid (some o), ¬kv.1 = REQUEST_ID → ¬kv.2 = "") := by
  refine ⟨?_, rfl, ?_⟩
  · have hq : createQueryValues rid (some o) = createQueryValues rid (some (squash o)) := by
      rw [createQueryValues_eq, createQueryValues_eq]
      simp only [squash, squashOpt_idem]
    unfold create
    rw [hq]
  · intro kv hkv hne
    rw [createQueryValues_eq, List.mem_cons] at hkv
    rcases hkv with rfl | hkv
    · exact absurd rfl hne
    · simp only [List.mem_append, mem_optEntry] at hkv
      rcases hkv with ((((⟨s, hv, rfl⟩ | ⟨s, hv, rfl⟩) | ⟨s, hv, rfl⟩) | ⟨s, hv, rfl⟩) | ⟨s, hv, rfl⟩) <;>
        exact squashOpt_ne_some_empty _ _ hv

/-- C7 witness: an empty-string scheme produces the same URI as an absent
scheme. -/
theorem create_falsy_omitted_witness :
    create ⟨"https", "example.com", "/x", "q0", "f0"⟩ "abc"
        (some ⟨some "", none, some "/bar", none, none⟩) =
      create ⟨"https", "example.com", "/x", "q0", "f0"⟩ "abc"
        (some ⟨none, none, some "/bar", none, none⟩) :=
  (create_falsy_omitted ⟨"https", "example.com", "/x", "q0", "f0"⟩ "abc"
    ⟨some "", none, some "/bar", none, none⟩).1

end PollingURLCallbackProvider

namespace Dialogs

/-- C9: the message returned by `getConfirmMessage` lists the basenames of at
most the first 10 resources; when more than 10 resources are given, exactly one
extra line reports the count of files not shown, with singular wording when
exactly one is omitted, and with at most 10 resources no such line appears; the
number of listed basenames is `min 10 (number of resources)`. -/
theorem confirm_message_truncation {α : Type} (basenameOf : α → String) (start : String)
    (rs : List α) :
    getConfirmMessage basenameOf start rs =
      String.intercalate "\n" ([start, ""] ++ (rs.take MAX_CONFIRM_FILES).map basenameOf ++
        (if MAX_CONFIRM_FILES < rs.length then
          [if rs.length = MAX_CONFIRM_FILES + 1 then moreFileMsg
            else moreFilesMsg (rs.length - MAX_CONFIRM_FILES)]
          else []) ++ [""]) ∧
      ((rs.take MAX_CONFIRM_FILES).map basenameOf).length = min MAX_CONFIRM_FILES rs.length := by
  constructor
  · unfold getConfirmMessage
    by_cases h : MAX_CONFIRM_FILES < rs.length
    · by_cases h1 : rs.length - MAX_CONFIRM_FILES = 1
      · have h2 : rs.length = MAX_CONFIRM_FILES + 1 := by omega
        simp [h, h1, h2]
      · have h2 : ¬rs.length = MAX_CONFIRM_FILES + 1 := by omega
        simp [h, h1, h2]
    · simp [h]
  · simp [List.length_take]

end Dialogs

namespace LocalStorageCredentialsProvider

theorem doGetPassword_append_last (l : List ICredential) (s a p : String)
    (h : ∀ c ∈ l, ¬(c.service = s ∧ c.account = a)) :
    doGetPassword (l ++ [⟨s, a, p⟩]) s (some a) = some p := by
  induction l with
  | nil => simp [doGetPassword]
  | cons c rest ih =>
    have hc := h c (by simp)
    have ihr := ih (fun c hc => h c (List.mem_cons_of_mem _ hc))
    by_cases hsrv : c.service = s
    · have hacct : ¬a = c.account := fun ha => hc ⟨hsrv, ha.symm⟩
      simp only [List.cons_append, doGetPassword, hsrv]
      simp [hacct, ihr]
    · simp only [List.cons_append, doGetPassword]
      simp [hsrv, ihr]

/-- C10: credentials form the expected key/value algebra.  After
`setPassword(service, account, password)`, `getPassword(service, account)`
returns that password; the stored list holds exactly one credential for the
pair (`setPassword` removes any prior entry before appending);
`deletePassword(service, account)` returns true exactly when a credential for
that pair was stored and removes exactly the matching entries; and credentials
of every other (service, account) pair are untouched by `setPassword`. -/
theorem credentials_algebra (creds : List ICredential) (s a p : String) :
    getPassword (setPassword creds s a p) s a = some p ∧
      (setPassword creds s a p).countP (fun c => c.service == s && c.account == a) = 1 ∧
      ((deletePassword creds s a).2 = true ↔ ∃ c ∈ creds, c.service = s ∧ c.account = a) ∧
      (deletePassword creds s a).1 = creds.filter (fun c => !(c.service == s && c.account == a)) ∧
      (∀ srv acct, ¬(srv = s ∧ acct = a) →
        (setPassword creds s a p).filter (fun c => c.service == srv && c.account == acct) =
          creds.filter (fun c => c.service == srv && c.account == acct)) := by
  refine ⟨?_, ?_, ?_, rfl, ?_⟩
  · unfold getPassword setPassword deletePassword
    apply doGetPassword_append_last
    intro c hcm
    have hnm := (List.mem_filter.mp hcm).2
    rintro ⟨h1, h2⟩
    simp [h1, h2] at hnm
  · unfold setPassword deletePassword
    rw [List.countP_append]
    have h0 : (creds.filter (fun c => !(c.service == s && c.account == a))).countP
        (fun c => c.service == s && c.account == a) = 0 := by
      rw [List.countP_eq_zero]
      intro c hcm
      have hnm := (List.mem_filter.mp hcm).2
      intro hp
      simp [hp] at hnm
    rw [h0]
    simp [List.countP_cons]
  · simp only [deletePassword, List.any_eq_true]
    constructor
    · rintro ⟨c, hcm, hcp⟩
      simp at hcp
      exact ⟨c, hcm, hcp⟩
    · rintro ⟨c, hcm, h1, h2⟩
      exact ⟨c, hcm, by simp [h1, h2]⟩
  · intro srv acct hne
    unfold setPassword deletePassword
    rw [List.filter_append]
    have hb : ((⟨s, a, p⟩ : ICredential).service == srv && (⟨s, a, p⟩ : ICredential).account == acct) = false := by
      by_cases h1 : s = srv
      · have h2 : ¬a = acct := fun h2 => hne ⟨h1.symm, h2.symm⟩
        simp [h1, h2]
      · simp [h1]
    have hnew : (([(⟨s, a, p⟩ : ICredential)]).filter (fun c => c.service == srv && c.account == acct)) = [] := by
      simp [List.filter, hb]
    rw [hnew, List.append_nil, List.filter_filter]
    apply List.filter_congr
    intro c _
    by_cases hp : (c.service == srv && c.account == acct) = true
    · have hpe : c.service = srv ∧ c.account = acct := by simpa using hp
      have hq : (c.service == s && c.account == a) = false := by
        by_cases h3 : c.service = s
        · have h4 : ¬c.account = a := fun h4 => hne ⟨hpe.1.symm.trans h3, hpe.2.symm.trans h4⟩
          simp [h3, h4]
        · simp [h3]
      simp [hp, hq]
    · have hp2 : (c.service == srv && c.account == acct) = false := Bool.eq_false_iff.mpr hp
      simp [hp2]

/-- C10 witness: a concrete set/get/delete round trip. -/
theorem credentials_algebra_witness :
    getPassword (setPassword [⟨"svc", "other", "x"⟩, ⟨"svc", "acct", "old"⟩] "svc" "acct" "pw")
        "svc" "acct" = some "pw" :=
  (credentials_algebra [⟨"svc", "other", "x"⟩, ⟨"svc", "acct", "old"⟩] "svc" "acct" "pw").1

end LocalStorageCredentialsProvider

theorem storageGet_storageStore (st : Storage) (k v : String) (sc : StorageScope) :
    storageGet (storageStore st k v sc) k sc = some v := by
  induction st with
  | nil => simp [storageStore, storageGet, List.find?]
  | cons e rest ih =>
    by_cases hp : (e.1.1 == k && e.1.2 == sc) = true
    · simp [storageStore, hp, storageGet, List.find?_cons]
    · have hp2 : (e.1.1 == k && e.1.2 == sc) = false := Bool.eq_false_iff.mpr hp
      simp only [storageStore, hp2, Bool.false_eq_true, if_false]
      simp only [storageGet, List.find?_cons, hp2] at ih ⊢
      exact ih

theorem compactStringifyList_beq_empty (l : List String) :
    (compactStringifyList l == "") = false := by
  rw [beq_eq_false_iff_ne]
  intro h
  have hl := congrArg String.length h
  rw [compactStringifyList, String.length_mk] at hl
  simp at hl

theorem skipWs_cons_of_not_ws (c : Char) (rest : List Char) (h : isJsonWs c = false) :
    skipWs (c :: rest) = c :: rest := by
  simp [skipWs, List.dropWhile_cons, h]

theorem hexVal_hexDigitL (d : Nat) (hd : d < 16) : hexVal (hexDigitL d) = some d := by
  interval_cases d <;> decide

theorem jsonQuote_data (s : String) :
    (jsonQuote s).data =
      Char.ofNat 34 :: (s.data.map jsonEscapeChar).flatten ++ [Char.ofNat 34] := rfl

theorem parseJsonStringBody_close (f : Nat) (rest : List Char) :
    parseJsonStringBody (f + 1) (Char.ofNat 34 :: rest) = some ([], rest) := by
  simp [parseJsonStringBody]

theorem parseJsonStringBody_plain_step (f : Nat) (c : Char) (tail : List Char)
    (h1 : (c == Char.ofNat 34) = false) (h2 : (c == Char.ofNat 92) = false) :
    parseJsonStringBody (f + 1) (c :: tail) =
      (parseJsonStringBody f tail).map (fun r => (c :: r.1, r.2)) := by
  simp [parseJsonStringBody, h1, h2]

theorem parseJsonStringBody_escape_step (f : Nat) (e d : Char) (tail : List Char)
    (he : (e == 'u') = false) (hd : decodeEscape e = some d) :
    parseJsonStringBody (f + 1) (Char.ofNat 92 :: e :: tail) =
      (parseJsonStringBody f tail).map (fun r => (d :: r.1, r.2)) := by
  have c1 : (Char.ofNat 92 == Char.ofNat 34) = false := by decide
  have c2 : (Char.ofNat 92 == Char.ofNat 92) = true := by decide
  simp [parseJsonStringBody, c1, c2, he, hd]

theorem parseJsonStringBody_unicode_step (f : Nat) (h1 h2 h3 h4 : Char) (tail : List Char)
    (a b c2 d : Nat) (hv1 : hexVal h1 = some a) (hv2 : hexVal h2 = some b)
    (hv3 : hexVal h3 = some c2) (hv4 : hexVal h4 = some d) :
    parseJsonStringBody (f + 1) (Char.ofNat 92 :: 'u' :: h1 :: h2 :: h3 :: h4 :: tail) =
      (parseJsonStringBody f tail).map
        (fun r => (Char.ofNat (a * 4096 + b * 256 + c2 * 16 + d) :: r.1, r.2)) := by
  have c1 : (Char.ofNat 92 == Char.ofNat 34) = false := by decide
  have cq : (Char.ofNat 92 == Char.ofNat 92) = true := by decide
  have c3 : (('u' : Char) == 'u') = true := by decide
  simp [parseJsonStringBody, c1, cq, c3, hv1, hv2, hv3, hv4]

theorem parseJsonStringBody_roundtrip (chars : List Char) :
    ∀ (fuel : Nat) (rest : List Char),
      (chars.map jsonEscapeChar).flatten.length + 1 ≤ fuel →
      parseJsonStringBody fuel
          ((chars.map jsonEscapeChar).flatten ++ Char.ofNat 34 :: rest) =
        some (chars, rest) := by
  induction chars with
  | nil =>
    intro fuel rest hf
    obtain ⟨f, rfl⟩ : ∃ f, fuel = f + 1 := ⟨fuel - 1, by omega⟩
    simpa using parseJsonStringBody_close f rest
  | cons c cs ih =>
    intro fuel rest hf
    simp only [List.map_cons, List.flatten_cons] at hf ⊢
    rw [List.length_append] at hf
    rw [List.append_assoc]
    by_cases h1 : c = Char.ofNat 34
    · subst h1
      have he : jsonEscapeChar (Char.ofNat 34) = [Char.ofNat 92, Char.ofNat 34] := rfl
      rw [he] at hf ⊢
      simp at hf
      obtain ⟨f, rfl⟩ : ∃ f, fuel = f + 1 := ⟨fuel - 1, by omega⟩
      rw [List.cons_append, List.cons_append, List.nil_append,
        parseJsonStringBody_escape_step f (Char.ofNat 34) (Char.ofNat 34) _ (by decide) (by decide),
        ih f rest (by simp; omega)]
      rfl
    by_cases h2 : c = Char.ofNat 92
    · subst h2
      have he : jsonEscapeChar (Char.ofNat 92) = [Char.ofNat 92, Char.ofNat 92] := rfl
      rw [he] at hf ⊢
      simp at hf
      obtain ⟨f, rfl⟩ : ∃ f, fuel = f + 1 := ⟨fuel - 1, by omega⟩
      rw [List.cons_append, List.cons_append, List.nil_append,
        parseJsonStringBody_escape_step f (Char.ofNat 92) (Char.ofNat 92) _ (by decide) (by decide),
        ih f rest (by simp; omega)]
      rfl
    by_cases h3 : c.toNat = 8
    · have hc : c = Char.ofNat 8 := by rw [← h3, Char.ofNat_toNat]
      subst hc
      have he : jsonEscapeChar (Char.ofNat 8) = [Char.ofNat 92, 'b'] := rfl
      rw [he] at hf ⊢
      simp at hf
      obtain ⟨f, rfl⟩ : ∃ f, fuel = f + 1 := ⟨fuel - 1, by omega⟩
      rw [List.cons_append, List.cons_append, List.nil_append,
        parseJsonStringBody_escape_step f 'b' (Char.ofNat 8) _ (by decide) (by decide),
        ih f rest (by simp; omega)]
      rfl
    by_cases h4 : c.toNat = 9
    · have hc : c = Char.ofNat 9 := by rw [← h4, Char.ofNat_toNat]
      subst hc
      have he : jsonEscapeChar (Char.ofNat 9) = [Char.ofNat 92, 't'] := rfl
      rw [he] at hf ⊢
      simp at hf
      obtain ⟨f, rfl⟩ : ∃ f, fuel = f + 1 := ⟨fuel - 1, by omega⟩
      rw [List.cons_append, List.cons_append, List.nil_append,
        parseJsonStringBody_escape_step f 't' (Char.ofNat 9) _ (by decide) (by decide),
        ih f rest (by simp; omega)]
      rfl
    by_cases h5 : c.toNat = 10
    · have hc : c = Char.ofNat 10 := by rw [← h5, Char.ofNat_toNat]
      subst hc
      have he : jsonEscapeChar (Char.ofNat 10) = [Char.ofNat 92, 'n'] := rfl
      rw [he] at hf ⊢
      simp at hf
      obtain ⟨f, rfl⟩ : ∃ f, fuel = f + 1 := ⟨fuel - 1, by omega⟩
      rw [List.cons_append, List.cons_append, List.nil_append,
        parseJsonStringBody_escape_step f 'n' (Char.ofNat 10) _ (by decide) (by decide),
        ih f rest (by simp; omega)]
      rfl
    by_cases h6 : c.toNat = 12
    · have hc : c = Char.ofNat 12 := by rw [← h6, Char.ofNat_toNat]
      subst hc
      have he : jsonEscapeChar (Char.ofNat 12) = [Char.ofNat 92, 'f'] := rfl
      rw [he] at hf ⊢
      simp at hf
      obtain ⟨f, rfl⟩ : ∃ f, fuel = f + 1 := ⟨fuel - 1, by omega⟩
      rw [List.cons_append, List.cons_append, List.nil_append,
        parseJsonStringBody_escape_step f 'f' (Char.ofNat 12) _ (by decide) (by decide),
        ih f rest (by simp; omega)]
      rfl
    by_cases h7 : c.toNat = 13
    · have hc : c = Char.ofNat 13 := by rw [← h7, Char.ofNat_toNat]
      subst hc
      have he : jsonEscapeChar (Char.ofNat 13) = [Char.ofNat 92, 'r'] := rfl
      rw [he] at hf ⊢
      simp at hf
      obtain ⟨f, rfl⟩ : ∃ f, fuel = f + 1 := ⟨fuel - 1, by omega⟩
      rw [List.cons_append, List.cons_append, List.nil_append,
        parseJsonStringBody_escape_step f 'r' (Char.ofNat 13) _ (by decide) (by decide),
        ih f rest (by simp; omega)]
      rfl
    by_cases h8 : c.toNat < 32
    · have he : jsonEscapeChar c =
          [Char.ofNat 92, 'u', '0', '0', hexDigitL (c.toNat / 16), hexDigitL (c.toNat % 16)] := by
        simp [jsonEscapeChar, beq_iff_eq, h1, h2, h3, h4, h5, h6, h7, h8]
      rw [he] at hf ⊢
      simp at hf
      obtain ⟨f, rfl⟩ : ∃ f, fuel = f + 1 := ⟨fuel - 1, by omega⟩
      rw [List.cons_append, List.cons_append, List.cons_append, List.cons_append,
        List.cons_append, List.cons_append, List.nil_append,
        parseJsonStringBody_unicode_step f '0' '0' (hexDigitL (c.toNat / 16))
          (hexDigitL (c.toNat % 16)) _ 0 0 (c.toNat / 16) (c.toNat % 16)
          (by decide) (by decide) (hexVal_hexDigitL _ (by omega)) (hexVal_hexDigitL _ (by omega)),
        ih f rest (by simp; omega)]
      have harith : 0 * 4096 + 0 * 256 + c.toNat / 16 * 16 + c.toNat % 16 = c.toNat := by omega
      simp only [Option.map_some', harith, Char.ofNat_toNat]
    · have he : jsonEscapeChar c = [c] := by
        simp [jsonEscapeChar, beq_iff_eq, h1, h2, h3, h4, h5, h6, h7, h8]
      rw [he] at hf ⊢
      simp at hf
      obtain ⟨f, rfl⟩ : ∃ f, fuel = f + 1 := ⟨fuel - 1, by omega⟩
      rw [List.cons_append, List.nil_append,
        parseJsonStringBody_plain_step f c _ (beq_eq_false_iff_ne.mpr h1) (beq_eq_false_iff_ne.mpr h2),
        ih f rest (by simp; omega)]
      rfl

theorem parseElems_step (f : Nat) (c : Char) (rest : List Char)
    (hws : isJsonWs c = false) (hq : (c == Char.ofNat 34) = true) :
    parseElems (f + 1) (c :: rest) =
      match parseJsonStringBody (rest.length + 1) rest with
      | none => none
      | some (body, rest2) =>
        match skipWs rest2 with
        | ',' :: rest3 => (parseElems f rest3).map (fun r => (String.mk body :: r.1, r.2))
        | ']' :: rest3 => some ([String.mk body], rest3)
        | _ => none := by
  simp only [parseElems, skipWs_cons_of_not_ws c rest hws, hq, if_true]

theorem compactItems_length_ge (l : List String) : l.length ≤ (compactItems l).length := by
  induction l with
  | nil => simp [compactItems]
  | cons x xs ih =>
    cases xs with
    | nil =>
      simp only [compactItems, jsonQuote_data, List.length_cons, List.length_append,
        List.length_nil]
      omega
    | cons y ys =>
      simp only [compactItems, jsonQuote_data, List.length_cons, List.length_append,
        List.length_nil] at ih ⊢
      omega

theorem parseElems_roundtrip (l : List String) :
    ∀ fuel, l.length + 1 ≤ fuel → l ≠ [] →
      parseElems fuel (compactItems l ++ [']']) = some (l, []) := by
  induction l with
  | nil => exact fun fuel _ hne => absurd rfl hne
  | cons x xs ih =>
    intro fuel hf _
    obtain ⟨f, rfl⟩ : ∃ f, fuel = f + 1 := ⟨fuel - 1, by omega⟩
    cases xs with
    | nil =>
      show parseElems (f + 1) ((jsonQuote x).data ++ [']']) = some ([x], [])
      rw [jsonQuote_data]
      simp only [List.cons_append, List.append_assoc, List.singleton_append, List.nil_append]
      rw [parseElems_step f (Char.ofNat 34)
        ((x.data.map jsonEscapeChar).flatten ++ Char.ofNat 34 :: [']'])
        (by decide) (by decide)]
      rw [parseJsonStringBody_roundtrip x.data
        (((x.data.map jsonEscapeChar).flatten ++ Char.ofNat 34 :: [']']).length + 1) [']']
        (by simp only [List.length_append, List.length_cons, List.length_nil]; omega)]
      rfl
    | cons y ys =>
      show parseElems (f + 1)
          (((jsonQuote x).data ++ ',' :: compactItems (y :: ys)) ++ [']']) =
        some (x :: y :: ys, [])
      rw [jsonQuote_data]
      simp only [List.cons_append, List.append_assoc, List.singleton_append, List.nil_append]
      rw [parseElems_step f (Char.ofNat 34)
        ((x.data.map jsonEscapeChar).flatten ++
          Char.ofNat 34 :: ',' :: (compactItems (y :: ys) ++ [']']))
        (by decide) (by decide)]
      rw [parseJsonStringBody_roundtrip x.data
        (((x.data.map jsonEscapeChar).flatten ++
          Char.ofNat 34 :: ',' :: (compactItems (y :: ys) ++ [']'])).length + 1)
        (',' :: (compactItems (y :: ys) ++ [']']))
        (by simp only [List.length_append, List.length_cons, List.length_nil]; omega)]
      show (parseElems f (compactItems (y :: ys) ++ [']'])).map
          (fun r => (String.mk x.data :: r.1, r.2)) = some (x :: y :: ys, [])
      rw [ih f (by simp only [List.length_cons] at hf ⊢; omega) (by simp)]
      rfl

theorem parseTrustedDomains_compact (l : List String) :
    parseTrustedDomains (compactStringifyList l) = some l := by
  cases l with
  | nil => decide
  | cons x xs =>
    have hdata : (compactStringifyList (x :: xs)).data =
        '[' :: (compactItems (x :: xs) ++ [']']) := rfl
    obtain ⟨t, ht⟩ : ∃ t, compactItems (x :: xs) = Char.ofNat 34 :: t := by
      cases xs with
      | nil =>
        exact ⟨(x.data.map jsonEscapeChar).flatten ++ [Char.ofNat 34], by
          rw [show compactItems [x] = (jsonQuote x).data from rfl, jsonQuote_data,
            List.cons_append]⟩
      | cons y ys =>
        exact ⟨((x.data.map jsonEscapeChar).flatten ++ [Char.ofNat 34]) ++
            ',' :: compactItems (y :: ys), by
          rw [show compactItems (x :: y :: ys) =
              (jsonQuote x).data ++ ',' :: compactItems (y :: ys) from rfl,
            jsonQuote_data, List.cons_append, List.cons_append]⟩
    have hsk1 : skipWs ('[' :: (compactItems (x :: xs) ++ [']'])) =
        '[' :: (compactItems (x :: xs) ++ [']']) :=
      skipWs_cons_of_not_ws _ _ (by decide)
    have hsk2 : skipWs (compactItems (x :: xs) ++ [']']) =
        Char.ofNat 34 :: (t ++ [']']) := by
      rw [ht, List.cons_append]
      exact skipWs_cons_of_not_ws _ _ (by decide)
    have hfu : (x :: xs).length + 1 ≤ (compactItems (x :: xs) ++ [']']).length + 1 := by
      have hlen := compactItems_length_ge (x :: xs)
      simp only [List.length_append, List.length_cons, List.length_nil] at hlen ⊢
      omega
    have hpe : parseElems ((compactItems (x :: xs)).length + 1 + 1)
        (compactItems (x :: xs) ++ [']']) = some (x :: xs, []) := by
      have h := parseElems_roundtrip (x :: xs) ((compactItems (x :: xs) ++ [']']).length + 1)
        hfu (by simp)
      simpa using h
    have hqb : ¬(Char.ofNat 34 = ']') := by decide
    simp [parseTrustedDomains, hdata, hsk1, hsk2, hqb, hpe]
    rfl

namespace TrustedDomainsContentProvider

/-- C8: for every call, `writeFile` parses the content as JSON (defaulting to
the empty list on parse failure) and stores the re-serialized result under
`http.linkProtectionTrustedDomains` in global scope; a subsequent `readFile`
returns the UTF-8 JSON serialization of that stored list — unconditionally,
including the defaulting case, by the proven codec round trip
`parseTrustedDomains_compact` — and falls back to the product's default trusted
domains when storage holds no value or an unparsable one. -/
theorem trusted_domains_write_read (st : Storage) (content : String)
    (defaults : Option (List String)) :
    writeFile st content =
      storageStore st TRUSTED_DOMAINS_STORAGE_KEY
        (compactStringifyList ((parseTrustedDomains content).getD [])) .GLOBAL ∧
      readFile defaults (writeFile st content) =
        utf8Encode (prettyStringifyList ((parseTrustedDomains content).getD [])) ∧
      (storageGet st TRUSTED_DOMAINS_STORAGE_KEY .GLOBAL = none →
        readFile defaults st = utf8Encode (prettyStringifyList (defaults.getD []))) ∧
      (∀ src, storageGet st TRUSTED_DOMAINS_STORAGE_KEY .GLOBAL = some src →
        parseTrustedDomains src = none →
        readFile defaults st = utf8Encode (prettyStringifyList (defaults.getD []))) := by
  refine ⟨rfl, ?_, ?_, ?_⟩
  · unfold readFile writeFile
    rw [storageGet_storageStore]
    simp only [compactStringifyList_beq_empty, Bool.false_eq_true, if_false]
    rw [parseTrustedDomains_compact]
    simp
  · intro h
    unfold readFile
    rw [h]
  · intro src hsr hp
    unfold readFile
    rw [hsr]
    by_cases hsrc : (src == "") = true
    · simp [hsrc]
    · have hsrc2 : (src == "") = false := Bool.eq_false_iff.mpr hsrc
      simp [hsrc2, hp]

/-- C8 witness: writing unparsable content stores the empty list, so reading it
back yields the pretty-printed empty list; with empty storage the read falls
back to the product defaults. -/
theorem trusted_domains_write_read_witness :
    readFile none (writeFile [] "not json") = utf8Encode (prettyStringifyList []) ∧
      readFile (some ["example.com"]) [] =
        utf8Encode (prettyStringifyList ["example.com"]) :=
  ⟨((trusted_domains_write_read [] "not json" none).2.1).trans (by decide),
    (trusted_domains_write_read [] "not json" (some ["example.com"])).2.2.1 rfl⟩

end TrustedDomainsContentProvider

end VSCodeWeb
